import Mathlib

/-!
Verification of the Xim hex editor core (FHMS-ITS/Xim), a shallow embedding
of `src/lib.rs`, `src/history.rs`, `src/model.rs`, `src/vim.rs`,
`src/utils.rs` and `src/controller.rs`.

Conventions of the embedding:
* `usize` values are `Nat`; saturating addition is capped at `usize::MAX`
  (`usizeCap`), saturating subtraction is `Nat` truncated subtraction.
* Byte values are `Nat` (their numeric value is what the code computes with).
* Rust `Vec` / `String` are `List`; a `Vec` used as a stack (push/pop/last at
  the back) is modelled with its top at the head of the list.
* Fallible operations return `Except`/`Option` together with the new state;
  `&mut self` methods become explicit state-passing functions.
* View/status-line writes are omitted: the spec places rendering out of scope.
-/

namespace Xim

/-- `usize::MAX` on the 64-bit targets the editor is built for. -/
def usizeCap : Nat := 2 ^ 64 - 1

/-- Rust `usize::saturating_add`. -/
def satAdd (a b : Nat) : Nat := min (a + b) usizeCap

/-- `UsizeMax` (lib.rs): a counter clamped to `[0, max]`. -/
structure UsizeMax where
  value : Nat
  max : Nat
  deriving Repr, DecidableEq

namespace UsizeMax

/-- `UsizeMax::adjust`: clamp `value` to `max` (lib.rs). -/
def adjust (u : UsizeMax) : UsizeMax := { u with value := min u.value u.max }

/-- `UsizeMax::new` (lib.rs): construct and clamp. -/
def new (value max : Nat) : UsizeMax := adjust { value := value, max := max }

/-- `UsizeMax::set_value` (lib.rs). -/
def set_value (u : UsizeMax) (v : Nat) : UsizeMax := adjust { u with value := v }

/-- `UsizeMax::set_maximum` (lib.rs). -/
def set_maximum (u : UsizeMax) (m : Nat) : UsizeMax := adjust { u with max := m }

/-- `UsizeMax::get_maximum` (lib.rs). -/
def get_maximum (u : UsizeMax) : Nat := u.max

/-- `impl Add<usize> for UsizeMax` (lib.rs): saturating add, then clamp. -/
def add (u : UsizeMax) (n : Nat) : UsizeMax := adjust { u with value := satAdd u.value n }

/-- `impl Sub<usize> for UsizeMax` (lib.rs): saturating sub, then clamp. -/
def sub (u : UsizeMax) (n : Nat) : UsizeMax := adjust { u with value := u.value - n }

/-- `impl Rem<usize> for UsizeMax` (lib.rs): `value %= other`, then clamp.
Rust `%` panics on a zero divisor; `Nat.mod _ 0` is the identity, the claims
only quantify over non-zero divisors. -/
def rem (u : UsizeMax) (n : Nat) : UsizeMax := adjust { u with value := u.value % n }

/-- `impl From<UsizeMax> for usize` (lib.rs): adjust, then expose `value`. -/
def toUsize (u : UsizeMax) : Nat := (adjust u).value

end UsizeMax

/-- One `UsizeMax` mutation, as exercised by the lib.rs quickcheck test and
the claim C2 operation list. -/
inductive UOp where
  | setValue (n : Nat)
  | setMaximum (n : Nat)
  | addOp (n : Nat)
  | subOp (n : Nat)
  | remOp (n : Nat)
  deriving Repr, DecidableEq

/-- Apply one operation to a counter. -/
def UOp.apply (u : UsizeMax) : UOp → UsizeMax
  | .setValue n => u.set_value n
  | .setMaximum n => u.set_maximum n
  | .addOp n => u.add n
  | .subOp n => u.sub n
  | .remOp n => u.rem n

/-- An operation that completes in Rust (remainder by zero panics there). -/
def UOp.wf : UOp → Bool
  | .remOp n => 0 < n
  | _ => true

/-- `Caret` (lib.rs): the four cursor modes. -/
inductive Caret where
  | index (pos : UsizeMax)
  | offset (pos : UsizeMax)
  | replaceC (pos : UsizeMax)
  | visual (start stop : UsizeMax)
  deriving Repr, DecidableEq

/-- `History<T>` (history.rs): `done`/`recall` snapshot stacks.  The Rust
`Vec` pushes and pops at the back; the list head models the stack top. -/
structure History (α : Type) where
  done : List α
  recallStack : List α
  deriving Repr, DecidableEq

namespace History

/-- `History::new` (history.rs). -/
def new : History α := ⟨[], []⟩

/-- `History::snapshot` (history.rs): push onto `done`, clear `recall`. -/
def snapshot (h : History α) (current : α) : History α :=
  ⟨current :: h.done, []⟩

/-- `History::init` (history.rs): delegates to `snapshot`. -/
def init (h : History α) (initial : α) : History α := h.snapshot initial

/-- `History::checkout` (history.rs): peek the top of `done`. -/
def checkout (h : History α) : Option α := h.done.head?

/-- `History::undo` (history.rs): no-op when `done.len() <= 1`, otherwise pop
the top of `done` onto `recall` and return the new top of `done`. -/
def undo (h : History α) : Option α × History α :=
  if h.done.length ≤ 1 then (none, h)
  else
    match h.done with
    | [] => (none, h)
    | a :: rest =>
      let h2 : History α := ⟨rest, a :: h.recallStack⟩
      (h2.checkout, h2)

/-- `History::redo` (history.rs): pop `recall` onto `done` and return it. -/
def redo (h : History α) : Option α × History α :=
  match h.recallStack with
  | [] => (none, h)
  | a :: rest =>
    let h2 : History α := ⟨a :: h.done, rest⟩
    (h2.checkout, h2)

end History

/-- `Model` (model.rs): path, caret, byte buffer and undo history. -/
structure Model where
  path : String
  caret : Caret
  buffer : List Nat
  history : History (List Nat × Caret)
  deriving Repr, DecidableEq

namespace Model

/-- `Model::new` (model.rs). -/
def new : Model :=
  ⟨"", .offset (UsizeMax.new 0 0), [], History.new⟩

/-- The success branch of `Model::open` (model.rs), with `bytes` the content
read from `path`: install the buffer, reset the caret, re-init the history. -/
def openBytes (m : Model) (path : String) (bytes : List Nat) : Model :=
  let caret := Caret.offset (UsizeMax.new 0 (bytes.length - 1))
  { m with path := path, buffer := bytes, caret := caret,
           history := m.history.init (bytes, caret) }

/-- `Model::set_index` (model.rs): set the representative counter. -/
def set_index (m : Model) (newIndex : Nat) : Model :=
  { m with caret :=
      match m.caret with
      | .index p => .index (p.set_value newIndex)
      | .offset p => .offset (p.set_value newIndex)
      | .replaceC p => .replaceC (p.set_value newIndex)
      | .visual s p => .visual s (p.set_value newIndex) }

/-- `Model::get_index` (model.rs): read the representative counter. -/
def get_index (m : Model) : Nat :=
  match m.caret with
  | .index p | .offset p | .replaceC p | .visual _ p => p.toUsize

/-- `Model::inc_index` (model.rs). -/
def inc_index (m : Model) (v : Nat) : Model :=
  { m with caret :=
      match m.caret with
      | .index p => .index (p.add v)
      | .offset p => .offset (p.add v)
      | .replaceC p => .replaceC (p.add v)
      | .visual s p => .visual s (p.add v) }

/-- `Model::dec_index` (model.rs). -/
def dec_index (m : Model) (v : Nat) : Model :=
  { m with caret :=
      match m.caret with
      | .index p => .index (p.sub v)
      | .offset p => .offset (p.sub v)
      | .replaceC p => .replaceC (p.sub v)
      | .visual s p => .visual s (p.sub v) }

/-- `Model::snapshot` (model.rs). -/
def snapshot (m : Model) : Model :=
  { m with history := m.history.snapshot (m.buffer, m.caret) }

/-- `Model::undo` (model.rs): restore the previous snapshot if any. -/
def undo (m : Model) : Bool × Model :=
  match m.history.undo with
  | (some (b, c), h2) => (true, { m with buffer := b, caret := c, history := h2 })
  | (none, h2) => (false, { m with history := h2 })

/-- `Model::redo` (model.rs): restore the next snapshot if any. -/
def redo (m : Model) : Bool × Model :=
  match m.history.redo with
  | (some (b, c), h2) => (true, { m with buffer := b, caret := c, history := h2 })
  | (none, h2) => (false, { m with history := h2 })

/-- `Model::edit` (model.rs): normalize `start <= end` by swapping, splice
`buffer[start..end] := new` when `end <= buffer.len()` and re-clamp the caret
bound(s) to the new length, otherwise fail without mutating. -/
def edit (m : Model) (start0 end0 : Nat) (new : List Nat) :
    Except String Unit × Model :=
  let s := if end0 < start0 then end0 else start0
  let e := if end0 < start0 then start0 else end0
  if e ≤ m.buffer.length then
    let buffer := m.buffer.take s ++ new ++ m.buffer.drop e
    let caret :=
      match m.caret with
      | .index p => Caret.index (p.set_maximum buffer.length)
      | .offset p => Caret.offset (p.set_maximum (buffer.length - 1))
      | .replaceC p => Caret.replaceC (p.set_maximum (buffer.length - 1))
      | .visual a b =>
          Caret.visual (a.set_maximum (buffer.length - 1))
            (b.set_maximum (buffer.length - 1))
    (Except.ok (), { m with buffer := buffer, caret := caret })
  else
    (Except.error "no data to edit", m)

end Model

/-! Section: vim.rs: the value-entry state machine -/

/-- `is_binary` (vim.rs), stated on code points. -/
def is_binary (c : Char) : Bool := 48 ≤ c.toNat && c.toNat ≤ 49

/-- `is_hex` (vim.rs), stated on code points: `0..9`, `a..f`, `A..F`. -/
def is_hex (c : Char) : Bool :=
  (48 ≤ c.toNat && c.toNat ≤ 57) || (97 ≤ c.toNat && c.toNat ≤ 102) ||
    (65 ≤ c.toNat && c.toNat ≤ 70)

/-- `is_printable` (vim.rs): `c as u8` truncates to the low byte. -/
def is_printable (c : Char) : Bool :=
  32 ≤ c.toNat % 256 && c.toNat % 256 ≤ 126

/-- `InputMode` (vim.rs). -/
inductive InputMode where
  | binary
  | hex
  | ascii
  deriving Repr, DecidableEq

/-- `InputState` (vim.rs). -/
inductive InputState where
  | done (byte : Nat)
  | incomplete (text : List Char)
  deriving Repr, DecidableEq

/-- `InputStateMachine` (vim.rs). -/
structure InputStateMachine where
  mode : InputMode
  state : InputState
  deriving Repr, DecidableEq

/-- `termion::event::Key`, restricted to the variants the editor matches on. -/
inductive Key where
  | char (c : Char)
  | backspace
  | esc
  | leftKey
  | rightKey
  | upKey
  | downKey
  | deleteKey
  | insertKey
  | ctrl (c : Char)
  deriving Repr, DecidableEq

/-- The digit value `char::to_digit(radix)` assigns, stated on code points. -/
def digitVal (radix : Nat) (c : Char) : Option Nat :=
  let d :=
    if 48 ≤ c.toNat && c.toNat ≤ 57 then some (c.toNat - 48)
    else if 97 ≤ c.toNat && c.toNat ≤ 122 then some (c.toNat - 97 + 10)
    else if 65 ≤ c.toNat && c.toNat ≤ 90 then some (c.toNat - 65 + 10)
    else none
  match d with
  | some v => if v < radix then some v else none
  | none => none

/-- Rust `from_str_radix` with the overflow bound `cap` of the integer type:
left-to-right Horner evaluation of the digits, `none` on an empty string, an
invalid digit, or overflow.  (Rust also accepts a leading sign; no caller in
the editor ever passes one — the machine only accumulates validated digits and
the spec's jump numerals are bare.) -/
def fromStrRadix (radix cap : Nat) (s : List Char) : Option Nat :=
  if s.isEmpty then none
  else
    s.foldl
      (fun acc c =>
        match acc, digitVal radix c with
        | some a, some d =>
            if radix * a + d ≤ cap then some (radix * a + d) else none
        | _, _ => none)
      (some 0)

namespace InputStateMachine

/-- `InputStateMachine::new` (vim.rs). -/
def new (mode : InputMode) : InputStateMachine :=
  ⟨mode, .incomplete []⟩

/-- `InputStateMachine::valid_input` (vim.rs). -/
def valid_input (m : InputStateMachine) (c : Char) : Bool :=
  match m.mode with
  | .binary => is_binary c
  | .hex => is_hex c
  | .ascii => is_printable c

/-- `InputStateMachine::initial` (vim.rs). -/
def initial (m : InputStateMachine) : Bool :=
  match m.state with
  | .incomplete text => text.isEmpty
  | .done _ => true

/-- `InputStateMachine::transition` (vim.rs).  The `unwrap`s on
`from_str_radix` never panic (only validated characters are pushed, as the
source's safe-from-panic comments state); they are modelled with default 0. -/
def transition (m : InputStateMachine) (key : Key) : InputStateMachine :=
  { m with state :=
      match m.state with
      | .incomplete text =>
        match key with
        | .backspace => .incomplete text.dropLast
        | .char x =>
          if m.valid_input x then
            let text := text ++ [x]
            match m.mode with
            | .binary =>
                if text.length = 8 then .done ((fromStrRadix 2 255 text).getD 0)
                else .incomplete text
            | .hex =>
                if text.length = 2 then .done ((fromStrRadix 16 255 text).getD 0)
                else .incomplete text
            | .ascii =>
                if text.length = 1 then .done ((text.headD ' ').toNat % 256)
                else .incomplete text
          else .incomplete text
        | _ => .incomplete text
      | .done b => .done b }

end InputStateMachine

/-- `VimState` (vim.rs): the controller's modal state. -/
inductive VimState where
  | normal
  | insertMode (machine : InputStateMachine)
  | replaceMode (machine : InputStateMachine) (repeated : Bool)
  | visualMode
  | commandMode (text : List Char)
  deriving Repr, DecidableEq

/-! Section: utils.rs / lib.rs: the viewport window -/

/-- `move_window` (utils.rs and lib.rs, identical): scroll `start` the minimal
amount needed to bring `new_index` into a window of `height` rows.  The
source computes `start + (height.saturating_sub(1))` and
`new_index - (height.saturating_sub(1))` with plain usize `+`/`-`, which wrap
modulo `2^64` in release builds (and panic in debug builds); the wrapping
semantics is modelled here, with the arguments understood as usize values
below `2^64`. -/
def move_window (start height newIndex : Nat) : Option Nat :=
  if height = 0 then none
  else
    let ns :=
      if newIndex < start then newIndex
      else if (start + (height - 1)) % 2 ^ 64 < newIndex then
        (newIndex + 2 ^ 64 - (height - 1)) % 2 ^ 64
      else start
    some ns

/-! Section: controller.rs: messages and the update function -/

/-- `Movement` (controller.rs). -/
inductive Movement where
  | left
  | right
  deriving Repr, DecidableEq

/-- `Direction` (controller.rs). -/
inductive Direction where
  | left
  | right
  | up
  | down
  | offsetDir (off : Nat)
  | newline
  | revert
  deriving Repr, DecidableEq

/-- `Msg` (controller.rs). -/
inductive Msg where
  | byte (b : Nat)
  | move (d : Direction)
  | quit
  | quitWithoutSaving
  | save
  | saveAs (path : List Char)
  | saveAndQuit
  | switch (mode : Option InputMode)
  | delete (movement : Option Movement)
  | toNormal
  | toInsert (repeated : Option Nat)
  | toAppend (repeated : Option Nat)
  | toReplace
  | toVisual
  | toCommand
  | clipboardCopy
  | clipboardPaste
  | yank
  | paste (movement : Option Movement)
  | undo
  | redo
  | showMsg (text : List Char)
  | redraw
  | resize (dimens : Nat × Nat)
  deriving Repr, DecidableEq

/-- The `Msg::Move` arm of `Controller::update` (controller.rs), without the
view scrolling/status writes. -/
def updateMove (d : Direction) (m : Model) : Model :=
  match d with
  | .left => m.dec_index 1
  | .right => m.inc_index 1
  | .up => m.dec_index 16
  | .down => m.inc_index 16
  | .offsetDir off => m.set_index off
  | .newline =>
      let m1 := m.inc_index 16
      let i := m1.get_index
      m1.set_index (i - i % 16)
  | .revert =>
      match m.caret with
      | .visual s e => { m with caret := .visual e s }
      | _ => m

/-- The `Msg::ToNormal` arm of `Controller::update` (controller.rs):
`Index(p)` steps back one byte, the bound shrinks by one; the other carets
keep their counter. -/
def updateToNormal (m : Model) : Model :=
  { m with caret :=
      match m.caret with
      | .index p => .offset (UsizeMax.new (p.value - 1) (p.get_maximum - 1))
      | .offset p | .replaceC p | .visual _ p => .offset p }

/-- The `Msg::ToInsert` arm of `Controller::update` (controller.rs). -/
def updateToInsert (m : Model) : Model :=
  { m with caret :=
      match m.caret with
      | .index p => .index p
      | .offset p | .replaceC p | .visual _ p =>
          .index (UsizeMax.new p.value (satAdd p.get_maximum 1)) }

/-- The `Msg::ToAppend` arm of `Controller::update` (controller.rs): the same
caret change as `ToInsert`, then `update(Msg::Move(Direction::Right))`. -/
def updateToAppend (m : Model) : Model :=
  updateMove .right (updateToInsert m)

/-- The `Msg::ToReplace` arm of `Controller::update` (controller.rs). -/
def updateToReplace (m : Model) : Model :=
  { m with caret :=
      match m.caret with
      | .index p => .replaceC (UsizeMax.new p.value (p.get_maximum - 1))
      | .offset p | .replaceC p | .visual _ p => .replaceC p }

/-- The `Msg::ToVisual` arm of `Controller::update` (controller.rs). -/
def updateToVisual (m : Model) : Model :=
  { m with caret :=
      match m.caret with
      | .index p =>
          .visual (UsizeMax.new p.value (p.get_maximum - 1))
            (UsizeMax.new p.value (p.get_maximum - 1))
      | .offset p | .replaceC p => .visual p p
      | .visual s e => .visual s e }

/-- `Controller` (controller.rs), without the out-of-scope `view` field. -/
structure Controller where
  state : VimState
  model : Model
  mode : InputMode
  yank : Option (List Nat)
  deriving Repr, DecidableEq

/-- `Controller::remove_left` (controller.rs): delete the byte left of the
cursor; when the cursor sat one past the end the shrunken bound already moved
it, so it is not moved again. -/
def remove_left (m : Model) : Model :=
  let i := m.get_index
  let atEnd := i = m.buffer.length
  let m1 := (m.edit (i - 1) i []).2
  if atEnd then m1 else m1.dec_index 1

/-- `Controller::remove_right` (controller.rs). -/
def remove_right (m : Model) : Model :=
  let i := m.get_index
  (m.edit i (satAdd i 1) []).2

/-- The `Msg::Delete` arm of `Controller::update` (controller.rs): early
return with `run = true` on an empty buffer; otherwise delete left/right of
the cursor or the normalized visual range, yanking where the source does, and
snapshot.  Slices (`buffer[a..b]`) are modelled with `drop`/`take`; the
source's in-bounds indexing cannot panic on the paths the claims exercise. -/
def updateDelete (c : Controller) (movement : Option Movement) :
    Bool × Controller :=
  if c.model.buffer.isEmpty then (true, c)
  else
    match movement with
    | some .left =>
        (true, { c with model := (remove_left c.model).snapshot })
    | some .right =>
        let yank1 :=
          match c.model.caret with
          | .offset _ => some ((c.model.buffer.drop c.model.get_index).take 1)
          | _ => c.yank
        (true, { c with yank := yank1,
                        model := (remove_right c.model).snapshot })
    | none =>
        match c.model.caret with
        | .visual s e =>
            let p := if e.toUsize < s.toUsize then (e, s) else (s, e)
            let sv := p.1.toUsize
            let ev := p.2.toUsize
            let yank1 := some ((c.model.buffer.drop sv).take (ev + 1 - sv))
            let r := c.model.edit sv (ev + 1) []
            let m2 :=
              match r.1 with
              | .ok _ => r.2.set_index sv
              | .error _ => r.2
            (true, { c with yank := yank1, model := m2.snapshot })
        | _ => (true, c)

/-- The `Msg::Yank` arm of `Controller::update` (controller.rs): early return
with `run = true` on an empty buffer; `Offset` yanks the byte under the
cursor, `Visual` yanks the normalized range and falls back to Normal via
`update(Msg::ToNormal)`; other carets do nothing. -/
def updateYank (c : Controller) : Bool × Controller :=
  if c.model.buffer.isEmpty then (true, c)
  else
    match c.model.caret with
    | .offset p => (true, { c with yank := some [c.model.buffer.getD p.value 0] })
    | .visual s e =>
        let p := if e.toUsize < s.toUsize then (e, s) else (s, e)
        let sv := p.1.toUsize
        let ev := p.2.toUsize
        let yank1 := some ((c.model.buffer.drop sv).take (ev + 1 - sv))
        (true, { c with yank := yank1, model := updateToNormal c.model })
    | _ => (true, c)

/-! Section: The command mini-language

`Controller::transition` parses the Command state's text with `Msg::parse`
(controller.rs line 803); that function's body is not among the provided
sources — the `VimCommand::parse` in vim.rs is an unused older copy without
the save-as form — so the parser is modelled from the spec below. -/

/-- Modelled from the spec: the jump-offset numeral interpretation of §6 —
"a bare numeral or `0b…`/`08…`/`0x…`-prefixed numeral (binary/octal/hex) is
interpreted as a jump-to-offset command". -/
def jumpInterp (cmd : List Char) : Option Nat :=
  let p :=
    if cmd.take 2 = ['0', 'b'] then (2, 2)
    else if cmd.take 2 = ['0', '8'] then (2, 8)
    else if cmd.take 2 = ['0', 'x'] then (2, 16)
    else (0, 10)
  fromStrRadix p.2 usizeCap (cmd.drop p.1)

/-- Modelled from the spec: `Msg::parse`, the command-mode mini-language of
§6 — `q` quit, `q!` quit without saving, `w` save, `w <path>` save-as,
`wq`/`x` save and quit, otherwise a jump-to-offset numeral, else an error.
A jump is delivered as `Msg::Move(Direction::Offset(_))`. -/
def Msg.parse (cmd : List Char) : Except String Msg :=
  if cmd = ['q'] then .ok .quit
  else if cmd = ['q', '!'] then .ok .quitWithoutSaving
  else if cmd = ['w'] then .ok .save
  else if cmd = ['w', 'q'] ∨ cmd = ['x'] then .ok .saveAndQuit
  else if cmd.take 2 = ['w', ' '] then .ok (.saveAs (cmd.drop 2))
  else
    match jumpInterp cmd with
    | some off => .ok (.move (.offsetDir off))
    | none => .error "no such command"

/-! Section: Reachability and the caret-bound invariant (claim C3) -/

/-- The caret/buffer bound consistency exactly as the spec words it:
`Index` carets are bounded by `len`, all on-byte carets by `len - 1`
(saturating to 0 on an empty buffer). -/
def caretBoundsExact (c : Caret) (len : Nat) : Prop :=
  match c with
  | .index p => p.max = len
  | .offset p => p.max = len - 1
  | .replaceC p => p.max = len - 1
  | .visual s e => s.max = len - 1 ∧ e.max = len - 1

/-- The bound consistency the code actually maintains: entering insert mode
from an on-byte caret sets the `Index` bound to `(len - 1) + 1`, which is `1`
rather than `0` when the buffer is empty. -/
def caretBoundsAmended (c : Caret) (len : Nat) : Prop :=
  match c with
  | .index p => p.max = len ∨ (len = 0 ∧ p.max = 1)
  | .offset p => p.max = len - 1
  | .replaceC p => p.max = len - 1
  | .visual s e => s.max = len - 1 ∧ e.max = len - 1

/-- A history snapshot whose caret bound is consistent with its own buffer
and whose buffer length is representable in `usize`. -/
def pairOk (p : List Nat × Caret) : Prop :=
  p.1.length ≤ usizeCap ∧ caretBoundsAmended p.2 p.1.length

/-- The full model invariant: the live pair and every stored snapshot are
bound-consistent. -/
def modelInv (m : Model) : Prop :=
  pairOk (m.buffer, m.caret) ∧
  (∀ p ∈ m.history.done, pairOk p) ∧
  (∀ p ∈ m.history.recallStack, pairOk p)

/-- One controller-triggered model mutation, per the operations claim C3
quantifies over: mode transitions, movement, edits, snapshots, undo/redo and
(re-)opening a file.  The side conditions record that Rust buffers cannot
outgrow `usize`. -/
inductive Step : Model → Model → Prop where
  | toNormal (m : Model) : Step m (updateToNormal m)
  | toInsert (m : Model) : Step m (updateToInsert m)
  | toAppend (m : Model) : Step m (updateToAppend m)
  | toReplace (m : Model) : Step m (updateToReplace m)
  | toVisual (m : Model) : Step m (updateToVisual m)
  | moveStep (d : Direction) (m : Model) : Step m (updateMove d m)
  | editStep (s e : Nat) (new : List Nat) (m : Model)
      (hcap : m.buffer.length + new.length ≤ usizeCap) :
      Step m (m.edit s e new).2
  | snapshotStep (m : Model) : Step m m.snapshot
  | undoStep (m : Model) : Step m m.undo.2
  | redoStep (m : Model) : Step m m.redo.2
  | openStep (path : String) (bytes : List Nat) (m : Model)
      (hcap : bytes.length ≤ usizeCap) :
      Step m (m.openBytes path bytes)

/-- States reachable from `Model::new` by the editor's operations. -/
def Reachable (m : Model) : Prop :=
  Relation.ReflTransGen Step Model.new m

lemma usizeCap_eq : usizeCap = 18446744073709551615 := by norm_num [usizeCap]

lemma modelInv_updateToNormal (m : Model) (h : modelInv m) :
    modelInv (updateToNormal m) := by
  obtain ⟨path, caret, buffer, history⟩ := m
  obtain ⟨⟨hlen, hc⟩, hd, hr⟩ := h
  refine ⟨⟨hlen, ?_⟩, hd, hr⟩
  cases caret <;>
    simp only [updateToNormal, caretBoundsAmended, UsizeMax.new, UsizeMax.adjust,
      UsizeMax.get_maximum] at hc ⊢ <;>
    omega

lemma modelInv_updateToInsert (m : Model) (h : modelInv m) :
    modelInv (updateToInsert m) := by
  obtain ⟨path, caret, buffer, history⟩ := m
  obtain ⟨⟨hlen, hc⟩, hd, hr⟩ := h
  refine ⟨⟨hlen, ?_⟩, hd, hr⟩
  have hlen2 : buffer.length ≤ 18446744073709551615 := by
    simpa [usizeCap_eq] using hlen
  cases caret <;>
    simp only [updateToInsert, caretBoundsAmended, UsizeMax.new, UsizeMax.adjust,
      UsizeMax.get_maximum, satAdd, usizeCap_eq] at hc ⊢ <;>
    omega

lemma modelInv_updateToReplace (m : Model) (h : modelInv m) :
    modelInv (updateToReplace m) := by
  obtain ⟨path, caret, buffer, history⟩ := m
  obtain ⟨⟨hlen, hc⟩, hd, hr⟩ := h
  refine ⟨⟨hlen, ?_⟩, hd, hr⟩
  cases caret <;>
    simp only [updateToReplace, caretBoundsAmended, UsizeMax.new, UsizeMax.adjust,
      UsizeMax.get_maximum] at hc ⊢ <;>
    omega

lemma modelInv_updateToVisual (m : Model) (h : modelInv m) :
    modelInv (updateToVisual m) := by
  obtain ⟨path, caret, buffer, history⟩ := m
  obtain ⟨⟨hlen, hc⟩, hd, hr⟩ := h
  refine ⟨⟨hlen, ?_⟩, hd, hr⟩
  cases caret <;>
    simp only [updateToVisual, caretBoundsAmended, UsizeMax.new, UsizeMax.adjust,
      UsizeMax.get_maximum] at hc ⊢ <;>
    omega

lemma modelInv_updateMove (d : Direction) (m : Model) (h : modelInv m) :
    modelInv (updateMove d m) := by
  obtain ⟨path, caret, buffer, history⟩ := m
  obtain ⟨⟨hlen, hc⟩, hd, hr⟩ := h
  cases d <;> cases caret <;>
    refine ⟨⟨hlen, ?_⟩, hd, hr⟩ <;>
    simp only [updateMove, Model.inc_index, Model.dec_index, Model.set_index,
      Model.get_index, caretBoundsAmended, UsizeMax.add, UsizeMax.sub,
      UsizeMax.set_value, UsizeMax.adjust] at hc ⊢ <;>
    omega

lemma modelInv_edit_aux (path : String) (caret : Caret) (buffer : List Nat)
    (history : History (List Nat × Caret)) (new : List Nat) (s e : Nat)
    (hcap : buffer.length + new.length ≤ usizeCap)
    (hd : ∀ p ∈ history.done, pairOk p)
    (hr : ∀ p ∈ history.recallStack, pairOk p)
    (hse : s ≤ e) (hbound : e ≤ buffer.length) :
    modelInv (Model.mk path
      (match caret with
        | .index p =>
            Caret.index (p.set_maximum (buffer.take s ++ new ++ buffer.drop e).length)
        | .offset p =>
            Caret.offset (p.set_maximum ((buffer.take s ++ new ++ buffer.drop e).length - 1))
        | .replaceC p =>
            Caret.replaceC (p.set_maximum ((buffer.take s ++ new ++ buffer.drop e).length - 1))
        | .visual a b =>
            Caret.visual (a.set_maximum ((buffer.take s ++ new ++ buffer.drop e).length - 1))
              (b.set_maximum ((buffer.take s ++ new ++ buffer.drop e).length - 1)))
      (buffer.take s ++ new ++ buffer.drop e) history) := by
  have hlb : (buffer.take s ++ new ++ buffer.drop e).length =
      s + new.length + (buffer.length - e) := by
    simp only [List.length_append, List.length_take, List.length_drop]
    omega
  rw [usizeCap_eq] at hcap
  refine ⟨⟨?_, ?_⟩, hd, hr⟩
  · simp only [hlb, usizeCap_eq]
    omega
  · cases caret <;>
      simp [caretBoundsAmended, UsizeMax.set_maximum, UsizeMax.adjust, hlb]

lemma modelInv_edit (m : Model) (s0 e0 : Nat) (new : List Nat)
    (hcap : m.buffer.length + new.length ≤ usizeCap) (h : modelInv m) :
    modelInv (m.edit s0 e0 new).2 := by
  obtain ⟨path, caret, buffer, history⟩ := m
  obtain ⟨⟨hlen, hc⟩, hd, hr⟩ := h
  simp only at hcap hlen hc hd hr
  by_cases horder : e0 < s0
  · simp only [Model.edit, horder, if_true]
    by_cases hble : s0 ≤ buffer.length
    · simp only [hble, if_true]
      exact modelInv_edit_aux path caret buffer history new e0 s0 hcap hd hr
        (by omega) hble
    · simp only [hble, if_false]
      exact ⟨⟨hlen, hc⟩, hd, hr⟩
  · simp only [Model.edit, horder, if_false]
    by_cases hble : e0 ≤ buffer.length
    · simp only [hble, if_true]
      exact modelInv_edit_aux path caret buffer history new s0 e0 hcap hd hr
        (by omega) hble
    · simp only [hble, if_false]
      exact ⟨⟨hlen, hc⟩, hd, hr⟩

lemma modelInv_snapshot (m : Model) (h : modelInv m) : modelInv m.snapshot := by
  obtain ⟨hcur, hd, hr⟩ := h
  refine ⟨hcur, ?_, ?_⟩
  · intro p hp
    simp only [Model.snapshot, History.snapshot, List.mem_cons] at hp
    rcases hp with rfl | hp
    · exact hcur
    · exact hd p hp
  · intro p hp
    simp only [Model.snapshot, History.snapshot, List.not_mem_nil] at hp

lemma undo_mem {α : Type} (h : History α) :
    (∀ q, h.undo.1 = some q → q ∈ h.done) ∧
    (∀ p ∈ h.undo.2.done, p ∈ h.done) ∧
    (∀ p ∈ h.undo.2.recallStack, p ∈ h.done ∨ p ∈ h.recallStack) := by
  obtain ⟨done, recallStack⟩ := h
  by_cases hle : done.length ≤ 1
  · simp only [History.undo, hle, if_true]
    exact ⟨fun q hq => by simp at hq, fun p hp => hp, fun p hp => Or.inr hp⟩
  · cases done with
    | nil => simp at hle
    | cons a rest =>
      simp only [History.undo, hle, if_false, History.checkout]
      refine ⟨?_, ?_, ?_⟩
      · intro q hq
        cases rest with
        | nil => simp at hq
        | cons b bs =>
          simp only [List.head?, Option.some.injEq] at hq
          exact List.mem_cons_of_mem a (by simp [hq])
      · intro p hp
        exact List.mem_cons_of_mem a hp
      · intro p hp
        simp only [List.mem_cons] at hp
        rcases hp with rfl | hp
        · exact Or.inl (List.mem_cons_self _ _)
        · exact Or.inr hp

lemma redo_mem {α : Type} (h : History α) :
    (∀ q, h.redo.1 = some q → q ∈ h.recallStack) ∧
    (∀ p ∈ h.redo.2.done, p ∈ h.done ∨ p ∈ h.recallStack) ∧
    (∀ p ∈ h.redo.2.recallStack, p ∈ h.recallStack) := by
  obtain ⟨done, recallStack⟩ := h
  cases recallStack with
  | nil =>
    simp only [History.redo]
    exact ⟨fun q hq => by simp at hq, fun p hp => Or.inl hp, fun p hp => hp⟩
  | cons a rest =>
    simp only [History.redo, History.checkout, List.head?, Option.some.injEq]
    refine ⟨?_, ?_, ?_⟩
    · intro q hq
      exact by simp [hq]
    · intro p hp
      simp only [List.mem_cons] at hp
      rcases hp with rfl | hp
      · exact Or.inr (List.mem_cons_self _ _)
      · exact Or.inl hp
    · intro p hp
      exact List.mem_cons_of_mem a hp

lemma modelInv_undo (m : Model) (h : modelInv m) : modelInv m.undo.2 := by
  obtain ⟨hcur, hd, hr⟩ := h
  obtain ⟨hq, hdm, hrm⟩ := undo_mem m.history
  unfold Model.undo
  rcases hu : m.history.undo with ⟨o, h2⟩
  rw [hu] at hq hdm hrm
  cases o with
  | none =>
    exact ⟨hcur, fun p hp => hd p (hdm p hp),
      fun p hp => (hrm p hp).elim (hd p) (hr p)⟩
  | some q =>
    obtain ⟨b, c⟩ := q
    exact ⟨hd (b, c) (hq (b, c) rfl), fun p hp => hd p (hdm p hp),
      fun p hp => (hrm p hp).elim (hd p) (hr p)⟩

lemma modelInv_redo (m : Model) (h : modelInv m) : modelInv m.redo.2 := by
  obtain ⟨hcur, hd, hr⟩ := h
  obtain ⟨hq, hdm, hrm⟩ := redo_mem m.history
  unfold Model.redo
  rcases hu : m.history.redo with ⟨o, h2⟩
  rw [hu] at hq hdm hrm
  cases o with
  | none =>
    exact ⟨hcur, fun p hp => (hdm p hp).elim (hd p) (hr p),
      fun p hp => hr p (hrm p hp)⟩
  | some q =>
    obtain ⟨b, c⟩ := q
    exact ⟨hr (b, c) (hq (b, c) rfl), fun p hp => (hdm p hp).elim (hd p) (hr p),
      fun p hp => hr p (hrm p hp)⟩

lemma modelInv_open (m : Model) (path : String) (bytes : List Nat)
    (hcap : bytes.length ≤ usizeCap) (h : modelInv m) :
    modelInv (m.openBytes path bytes) := by
  obtain ⟨hcur, hd, hr⟩ := h
  have hb : caretBoundsAmended (.offset (UsizeMax.new 0 (bytes.length - 1)))
      bytes.length := by
    simp [caretBoundsAmended, UsizeMax.new, UsizeMax.adjust]
  refine ⟨⟨hcap, hb⟩, ?_, ?_⟩
  · intro p hp
    simp only [Model.openBytes, History.init, History.snapshot,
      List.mem_cons] at hp
    rcases hp with rfl | hp
    · exact ⟨hcap, hb⟩
    · exact hd p hp
  · intro p hp
    simp only [Model.openBytes, History.init, History.snapshot,
      List.not_mem_nil] at hp

lemma modelInv_step (m1 m2 : Model) (hs : Step m1 m2) (h : modelInv m1) :
    modelInv m2 :=
  match hs with
  | .toNormal m => modelInv_updateToNormal m h
  | .toInsert m => modelInv_updateToInsert m h
  | .toAppend m =>
      modelInv_updateMove .right (updateToInsert m) (modelInv_updateToInsert m h)
  | .toReplace m => modelInv_updateToReplace m h
  | .toVisual m => modelInv_updateToVisual m h
  | .moveStep d m => modelInv_updateMove d m h
  | .editStep s e new m hcap => modelInv_edit m s e new hcap h
  | .snapshotStep m => modelInv_snapshot m h
  | .undoStep m => modelInv_undo m h
  | .redoStep m => modelInv_redo m h
  | .openStep path bytes m hcap => modelInv_open m path bytes hcap h

lemma modelInv_new : modelInv Model.new := by
  refine ⟨⟨?_, ?_⟩, ?_, ?_⟩
  · simp [Model.new, usizeCap]
  · simp [Model.new, caretBoundsAmended, UsizeMax.new, UsizeMax.adjust]
  · intro p hp
    simp [Model.new, History.new] at hp
  · intro p hp
    simp [Model.new, History.new] at hp

lemma modelInv_reachable (m : Model) (h : Reachable m) : modelInv m := by
  induction h with
  | refl => exact modelInv_new
  | tail hsteps hstep ih => exact modelInv_step _ _ hstep ih

/-! Section: Claim theorems -/

/-- C1: `Model::edit(start, end, new)` on a buffer of length `L` first
normalizes the range (swapping so that `start <= end`); if the normalized end
is within `L` it succeeds, the buffer becomes the splice replacing
`[start, end)` with `new`, and the length is `L - (end - start) + new.len()`;
otherwise it returns the out-of-range error with buffer and caret unchanged. -/
theorem c1_edit_splice (m : Model) (start0 end0 : Nat) (new : List Nat) :
    (max start0 end0 ≤ m.buffer.length →
      (m.edit start0 end0 new).1 = Except.ok () ∧
      (m.edit start0 end0 new).2.buffer =
        m.buffer.take (min start0 end0) ++ new ++
          m.buffer.drop (max start0 end0) ∧
      (m.edit start0 end0 new).2.buffer.length =
        m.buffer.length - (max start0 end0 - min start0 end0) + new.length) ∧
    (m.buffer.length < max start0 end0 →
      (m.edit start0 end0 new).1 = Except.error "no data to edit" ∧
      (m.edit start0 end0 new).2.buffer = m.buffer ∧
      (m.edit start0 end0 new).2.caret = m.caret) := by
  obtain ⟨path, caret, buffer, history⟩ := m
  simp only
  constructor
  · intro hle
    by_cases horder : end0 < start0
    · have hmin : min start0 end0 = end0 := by omega
      have hmax : max start0 end0 = start0 := by omega
      rw [hmax] at hle
      rw [hmin, hmax]
      have hble : start0 ≤ buffer.length := hle
      simp only [Model.edit, horder, hble, if_true]
      refine ⟨by trivial, by trivial, ?_⟩
      simp only [List.length_append, List.length_take, List.length_drop]
      omega
    · have hmin : min start0 end0 = start0 := by omega
      have hmax : max start0 end0 = end0 := by omega
      rw [hmax] at hle
      rw [hmin, hmax]
      have hble : end0 ≤ buffer.length := hle
      simp only [Model.edit, horder, hble, if_true, if_false]
      refine ⟨by trivial, by trivial, ?_⟩
      simp only [List.length_append, List.length_take, List.length_drop]
      omega
  · intro hgt
    by_cases horder : end0 < start0
    · have hmax : max start0 end0 = start0 := by omega
      rw [hmax] at hgt
      have hble : ¬ start0 ≤ buffer.length := by omega
      simp only [Model.edit, horder, hble, if_true, if_false]
      exact ⟨by trivial, by trivial, by trivial⟩
    · have hmax : max start0 end0 = end0 := by omega
      rw [hmax] at hgt
      have hble : ¬ end0 ≤ buffer.length := by omega
      simp only [Model.edit, horder, hble, if_false]
      exact ⟨by trivial, by trivial, by trivial⟩

/-- Witness for `c1_edit_splice`: a concrete in-bounds splice with swapped
range arguments, and a concrete out-of-range failure. -/
theorem c1_edit_splice_witness :
    ((Model.mk "" (.offset (UsizeMax.new 0 2)) [1, 2, 3] History.new).edit
        3 1 [9, 9]).2.buffer = [1, 9, 9] ∧
    ((Model.mk "" (.offset (UsizeMax.new 0 2)) [1, 2, 3] History.new).edit
        0 5 [7]).1 = Except.error "no data to edit" := by
  constructor
  · have h := (c1_edit_splice (Model.mk "" (.offset (UsizeMax.new 0 2))
      [1, 2, 3] History.new) 3 1 [9, 9]).1 (by decide)
    simpa using h.2.1
  · exact ((c1_edit_splice (Model.mk "" (.offset (UsizeMax.new 0 2))
      [1, 2, 3] History.new) 0 5 [7]).2 (by decide)).1

lemma UsizeMax.adjust_le (u : UsizeMax) :
    (UsizeMax.adjust u).value ≤ (UsizeMax.adjust u).max :=
  min_le_right _ _

lemma UOp.apply_le (u : UsizeMax) (op : UOp) :
    (UOp.apply u op).value ≤ (UOp.apply u op).max := by
  cases op <;> exact UsizeMax.adjust_le _

lemma foldl_apply_le (ops : List UOp) (u : UsizeMax) (h : u.value ≤ u.max) :
    (ops.foldl UOp.apply u).value ≤ (ops.foldl UOp.apply u).max := by
  induction ops generalizing u with
  | nil => exact h
  | cons op rest ih => exact ih _ (UOp.apply_le u op)

/-- C2: starting from `UsizeMax::new(v, mx)` and applying any sequence of
set-value/set-maximum/add/sub/rem operations that complete in Rust, the
invariant `value <= max` holds after every step; in particular the freshly
constructed value never exceeds `mx`, and the `usize` conversion of the final
state is also bounded by its `max`. -/
theorem c2_usizemax_invariant (v mx : Nat) (ops : List UOp)
    (_hwf : ∀ op ∈ ops, op.wf = true) :
    (UsizeMax.new v mx).value ≤ mx ∧
    (ops.foldl UOp.apply (UsizeMax.new v mx)).value ≤
      (ops.foldl UOp.apply (UsizeMax.new v mx)).max ∧
    UsizeMax.toUsize (ops.foldl UOp.apply (UsizeMax.new v mx)) ≤
      (ops.foldl UOp.apply (UsizeMax.new v mx)).max :=
  ⟨min_le_right _ _, foldl_apply_le ops _ (min_le_right _ _), min_le_right _ _⟩

/-- Witness for `c2_usizemax_invariant` on a concrete operation sequence. -/
theorem c2_usizemax_invariant_witness :
    (∀ op ∈ ([UOp.addOp 5, UOp.setMaximum 2, UOp.remOp 2, UOp.subOp 1,
        UOp.setValue 100] : List UOp), op.wf = true) ∧
    (([UOp.addOp 5, UOp.setMaximum 2, UOp.remOp 2, UOp.subOp 1,
        UOp.setValue 100] : List UOp).foldl UOp.apply
        (UsizeMax.new 7 10)).value ≤
      (([UOp.addOp 5, UOp.setMaximum 2, UOp.remOp 2, UOp.subOp 1,
        UOp.setValue 100] : List UOp).foldl UOp.apply
        (UsizeMax.new 7 10)).max :=
  ⟨by decide, (c2_usizemax_invariant 7 10 _ (by decide)).2.1⟩

/-- C3 (amended): in every reachable model state, an `Index` caret is
bounded by `buffer.len()` — except that entering insert/append mode from an
on-byte caret on an empty buffer yields the bound `1` — and `Offset`,
`Replace` and both `Visual` endpoints are bounded by `buffer.len() - 1`,
saturating to 0 on an empty buffer. -/
theorem c3_caret_bounds (m : Model) (h : Reachable m) :
    caretBoundsAmended m.caret m.buffer.length :=
  (modelInv_reachable m h).1.2

/-- Witness for `c3_caret_bounds` at the initial model. -/
theorem c3_caret_bounds_witness :
    caretBoundsAmended Model.new.caret Model.new.buffer.length :=
  c3_caret_bounds Model.new Relation.ReflTransGen.refl

/-- C3 counterexample: entering insert mode on the freshly created (empty)
model is reachable and yields an `Index` caret whose bound is `1`, not
`buffer.len() = 0` — the claim's exact bound rule fails there. -/
theorem c3_caret_bounds_counterexample :
    Reachable (updateToInsert Model.new) ∧
      ¬ caretBoundsExact (updateToInsert Model.new).caret
          (updateToInsert Model.new).buffer.length := by
  constructor
  · exact Relation.ReflTransGen.single (Step.toInsert Model.new)
  · simp only [Model.new, updateToInsert, caretBoundsExact, UsizeMax.new,
      UsizeMax.adjust, UsizeMax.get_maximum, satAdd, usizeCap_eq,
      List.length_nil]
    omega

/-- C4: after `init(x)` then `snapshot(y)`, `undo()` returns `x` exactly
once and leaves `done = [x]`, every further `undo()` is a no-op returning
`none` (the oldest snapshot is the permanent floor: `undo` is a no-op whenever
`done.len() <= 1`), `redo()` then returns `y`, and `redo()` immediately after
any `snapshot` returns `none`. -/
theorem c4_history_undo_redo (α : Type) (x y : α) :
    ((History.new.init x).snapshot y).undo = (some x, ⟨[x], [y]⟩) ∧
    History.undo (⟨[x], [y]⟩ : History α) = (none, ⟨[x], [y]⟩) ∧
    History.redo (⟨[x], [y]⟩ : History α) = (some y, ⟨[y, x], []⟩) ∧
    (∀ h : History α, h.done.length ≤ 1 → h.undo = (none, h)) ∧
    (∀ (h : History α) (z : α), ((h.snapshot z).redo).1 = none) := by
  refine ⟨rfl, rfl, rfl, ?_, fun h z => rfl⟩
  intro h hle
  unfold History.undo
  rw [if_pos hle]

/-- Witness for `c4_history_undo_redo` at concrete values. -/
theorem c4_history_undo_redo_witness :
    ((History.new.init (0 : Nat)).snapshot 1).undo = (some 0, ⟨[0], [1]⟩) ∧
    History.undo (History.mk [5] [] : History Nat) =
      (none, History.mk [5] []) :=
  ⟨(c4_history_undo_redo Nat 0 1).1,
    (c4_history_undo_redo Nat 0 1).2.2.2.1 _ (by decide)⟩

/-- C5: the controller's transition to Normal maps `Index(p)` to
`Offset(q)` with `q.value = p.value - 1` and `q.max = p.max - 1` (saturating),
and maps `Offset(p)`, `Replace(p)` and `Visual(_, p)` to `Offset(p)`
unchanged. -/
theorem c5_to_normal (m : Model) :
    (∀ p : UsizeMax, m.caret = .index p → p.value ≤ p.max →
      (updateToNormal m).caret = .offset ⟨p.value - 1, p.max - 1⟩) ∧
    (∀ p : UsizeMax, m.caret = .offset p →
      (updateToNormal m).caret = .offset p) ∧
    (∀ p : UsizeMax, m.caret = .replaceC p →
      (updateToNormal m).caret = .offset p) ∧
    (∀ s p : UsizeMax, m.caret = .visual s p →
      (updateToNormal m).caret = .offset p) := by
  refine ⟨?_, ?_, ?_, ?_⟩
  · intro p hcar hle
    simp only [updateToNormal, hcar, UsizeMax.new, UsizeMax.adjust,
      UsizeMax.get_maximum, Caret.offset.injEq]
    congr 1
    omega
  · intro p hcar
    simp [updateToNormal, hcar]
  · intro p hcar
    simp [updateToNormal, hcar]
  · intro s p hcar
    simp [updateToNormal, hcar]

/-- Witness for `c5_to_normal` on a concrete `Index` caret. -/
theorem c5_to_normal_witness :
    (updateToNormal (Model.mk "" (.index (UsizeMax.new 2 3)) [1, 2, 3]
        History.new)).caret = .offset ⟨1, 2⟩ :=
  (c5_to_normal _).1 (UsizeMax.new 2 3) rfl (by decide)

/-- C7 counterexample: `init` does not clear the `done` stack — on a
history already holding a snapshot, `init(1)` leaves two snapshots and the
subsequent `undo()` returns the old snapshot instead of `none`. -/
theorem c7_init_counterexample :
    ((History.mk [0] [] : History Nat).init 1).done = [1, 0] ∧
    ((History.mk [0] [] : History Nat).init 1).undo.1 = some 0 :=
  ⟨rfl, rfl⟩

/-- C7 (amended): `init(x)` is exactly `snapshot(x)` — it pushes `x` onto
`done` and clears `recall`, without clearing `done`; when the history was
empty (as for a freshly created `History`), `x` becomes the single snapshot,
after which `checkout()` returns `x` and `undo()` returns `none`. -/
theorem c7_init_amended (α : Type) (h : History α) (x : α) :
    h.init x = h.snapshot x ∧
    (h.done = [] →
      ((h.init x).done = [x] ∧ (h.init x).recallStack = [] ∧
       (h.init x).checkout = some x ∧ (h.init x).undo.1 = none)) := by
  refine ⟨rfl, ?_⟩
  intro hd
  simp [History.init, History.snapshot, History.checkout, History.undo, hd]

/-- Witness for `c7_init_amended` on a freshly created history. -/
theorem c7_init_amended_witness :
    ((History.new.init (7 : Nat)).done = [7] ∧
     (History.new.init (7 : Nat)).recallStack = [] ∧
     (History.new.init (7 : Nat)).checkout = some 7 ∧
     (History.new.init (7 : Nat)).undo.1 = none) :=
  (c7_init_amended Nat History.new 7).2 rfl

/-- C9 (amended): for usize-representable arguments whose window bound
`start + (height - 1)` does not overflow, `move_window(start, height, index)`
returns `none` exactly when `height = 0`; when the index already lies in
`[start, start + height - 1]` the window does not move; and any returned
start places the index within the window `[new_start, new_start + height - 1]`.
(Without the no-overflow hypothesis the usize addition wraps and the
no-unnecessary-scroll property fails; see the counterexample.) -/
theorem c9_move_window (start height idx : Nat)
    (hs : start ≤ usizeCap) (hh : height ≤ usizeCap) (hi : idx ≤ usizeCap)
    (hno : start + (height - 1) ≤ usizeCap) :
    (move_window start height idx = none ↔ height = 0) ∧
    (0 < height → start ≤ idx → idx ≤ start + (height - 1) →
      move_window start height idx = some start) ∧
    (∀ ns, move_window start height idx = some ns →
      ns ≤ idx ∧ idx ≤ ns + (height - 1)) := by
  have hpow : (2 : Nat) ^ 64 = 18446744073709551616 := by norm_num
  rw [usizeCap_eq] at hs hh hi hno
  by_cases h0 : height = 0
  · subst h0
    simp [move_window]
  · have hmod1 : (start + (height - 1)) % 2 ^ 64 = start + (height - 1) := by
      rw [hpow]
      omega
    refine ⟨by simp [move_window, h0], ?_, ?_⟩
    · intro hpos h1 h2
      simp only [move_window, h0, if_false, hmod1]
      rw [if_neg (by omega), if_neg (by omega)]
    · intro ns hns
      simp only [move_window, h0, if_false, hmod1, Option.some.injEq] at hns
      rw [hpow] at hns
      split_ifs at hns with ha hb <;> omega

/-- C9 counterexample: at the representable input `start = index = usize::MAX`
and `height = 2`, the index lies inside `[start, start + height - 1]`, yet the
wrapped window bound makes `move_window` return `usize::MAX - 1` instead of
`start` — the claim's no-unnecessary-scroll rule fails on the code. -/
theorem c9_move_window_counterexample :
    usizeCap ≤ usizeCap ∧ usizeCap ≤ usizeCap + (2 - 1) ∧
    move_window usizeCap 2 usizeCap = some (usizeCap - 1) ∧
    move_window usizeCap 2 usizeCap ≠ some usizeCap := by
  refine ⟨?_, ?_, ?_, ?_⟩ <;> decide

/-- Witness for `c9_move_window`: no scroll when inside the window, and the
returned start brackets the index when scrolling down. -/
theorem c9_move_window_witness :
    move_window 10 4 12 = some 10 ∧ (17 ≤ 20 ∧ 20 ≤ 17 + (4 - 1)) :=
  ⟨(c9_move_window 10 4 12 (by decide) (by decide) (by decide)
      (by decide)).2.1 (by decide) (by decide) (by decide),
    (c9_move_window 10 4 20 (by decide) (by decide) (by decide)
      (by decide)).2.2 17 (by decide)⟩

/-- C10: on an empty buffer, the controller's `Delete` (any movement) and
`Yank` messages return immediately with `run = true`, leaving the whole
controller — buffer, caret, yank register and history — unchanged. -/
theorem c10_empty_buffer_noop (c : Controller) (mv : Option Movement)
    (hbuf : c.model.buffer = []) :
    updateDelete c mv = (true, c) ∧ updateYank c = (true, c) := by
  have he : c.model.buffer.isEmpty = true := by rw [hbuf]; rfl
  constructor
  · simp [updateDelete, he]
  · simp [updateYank, he]

/-- Witness for `c10_empty_buffer_noop` on the freshly created controller. -/
theorem c10_empty_buffer_noop_witness :
    updateDelete (Controller.mk .normal Model.new .hex none) none =
      (true, Controller.mk .normal Model.new .hex none) ∧
    updateYank (Controller.mk .normal Model.new .hex none) =
      (true, Controller.mk .normal Model.new .hex none) :=
  c10_empty_buffer_noop (Controller.mk .normal Model.new .hex none) none rfl

lemma digitVal16_hex (c : Char) (v : Nat) (h : digitVal 16 c = some v) :
    is_hex c = true ∧ v < 16 := by
  unfold digitVal at h
  split_ifs at h with h1 h2 h3
  · simp only [Bool.and_eq_true, decide_eq_true_eq] at h1
    simp only [] at h
    split_ifs at h with h4
    simp only [Option.some.injEq] at h
    refine ⟨?_, by omega⟩
    simp only [is_hex, Bool.or_eq_true, Bool.and_eq_true, decide_eq_true_eq]
    omega
  · simp only [Bool.and_eq_true, decide_eq_true_eq] at h2
    simp only [] at h
    split_ifs at h with h4
    simp only [Option.some.injEq] at h
    refine ⟨?_, by omega⟩
    simp only [is_hex, Bool.or_eq_true, Bool.and_eq_true, decide_eq_true_eq]
    omega
  · simp only [Bool.and_eq_true, decide_eq_true_eq] at h3
    simp only [] at h
    split_ifs at h with h4
    simp only [Option.some.injEq] at h
    refine ⟨?_, by omega⟩
    simp only [is_hex, Bool.or_eq_true, Bool.and_eq_true, decide_eq_true_eq]
    omega

lemma fromStrRadix_hex_pair (c1 c2 : Char) (v1 v2 : Nat)
    (h1 : digitVal 16 c1 = some v1) (h2 : digitVal 16 c2 = some v2)
    (hv1 : v1 < 16) (hv2 : v2 < 16) :
    fromStrRadix 16 255 [c1, c2] = some (16 * v1 + v2) := by
  unfold fromStrRadix
  rw [if_neg (by simp)]
  simp only [List.foldl, h1, h2]
  rw [if_pos (by omega)]
  simp only [h2]
  rw [if_pos (by omega)]
  congr 1
  omega

/-- C8: in Hex mode the input machine started at `Incomplete("")` reaches
`Done(16*v1 + v2)` after exactly two valid hex digits; a Backspace while
`Incomplete` drops the last accumulated character; any key that is neither
Backspace nor a valid input character leaves the machine unchanged; and a
`Done` machine is inert. -/
theorem c8_hex_machine :
    (∀ (c1 c2 : Char) (v1 v2 : Nat),
      digitVal 16 c1 = some v1 → digitVal 16 c2 = some v2 →
      (((InputStateMachine.new .hex).transition (.char c1)).transition
          (.char c2)).state = .done (16 * v1 + v2)) ∧
    (∀ (msm : InputStateMachine) (text : List Char),
      msm.state = .incomplete text →
      (msm.transition .backspace).state = .incomplete text.dropLast) ∧
    (∀ (msm : InputStateMachine) (k : Key),
      (match k with
        | .char ch => msm.valid_input ch = false
        | .backspace => False
        | _ => True) →
      msm.transition k = msm) ∧
    (∀ (msm : InputStateMachine) (b : Nat) (k : Key),
      msm.state = .done b → (msm.transition k).state = .done b) := by
  refine ⟨?_, ?_, ?_, ?_⟩
  · intro c1 c2 v1 v2 h1 h2
    obtain ⟨hh1, hv1⟩ := digitVal16_hex c1 v1 h1
    obtain ⟨hh2, hv2⟩ := digitVal16_hex c2 v2 h2
    have hfrom := fromStrRadix_hex_pair c1 c2 v1 v2 h1 h2 hv1 hv2
    simp [InputStateMachine.new, InputStateMachine.transition,
      InputStateMachine.valid_input, hh1, hh2, hfrom]
  · intro msm text hstate
    obtain ⟨mode, state⟩ := msm
    simp only at hstate
    subst hstate
    rfl
  · intro msm k hk
    obtain ⟨mode, state⟩ := msm
    cases state with
    | done b => cases k <;> rfl
    | incomplete text =>
      cases k <;>
        simp_all [InputStateMachine.transition, InputStateMachine.valid_input]
  · intro msm b k h
    obtain ⟨mode, state⟩ := msm
    simp only at h
    subst h
    cases k <;> rfl

/-- Witness for `c8_hex_machine`: `'a'` then `'f'` composes `0xAF = 175`,
`'a'` then Backspace leaves `Incomplete("")`, an invalid key (`'g'` in hex
mode) is ignored, and a `Done` machine stays `Done`. -/
theorem c8_hex_machine_witness :
    (((InputStateMachine.new .hex).transition (.char 'a')).transition
        (.char 'f')).state = .done 175 ∧
    (((InputStateMachine.new .hex).transition (.char 'a')).transition
        .backspace).state = .incomplete [] ∧
    (InputStateMachine.new .hex).transition (.char 'g') =
      InputStateMachine.new .hex ∧
    ((InputStateMachine.mk .hex (.done 7)).transition .backspace).state =
      .done 7 := by
  refine ⟨?_, ?_, ?_, ?_⟩
  · exact c8_hex_machine.1 'a' 'f' 10 15 (by decide) (by decide)
  · exact c8_hex_machine.2.1 ((InputStateMachine.new .hex).transition
      (.char 'a')) ['a'] (by decide)
  · exact c8_hex_machine.2.2.1 (InputStateMachine.new .hex) (.char 'g')
      (by decide)
  · exact c8_hex_machine.2.2.2 (InputStateMachine.mk .hex (.done 7)) 7
      .backspace rfl

/-- C6 (against the spec-modelled `Msg::parse`): command parsing maps
`q`/`q!`/`w`/`w <path>`/`wq`/`x` to the corresponding commands, and any other
text to the jump-offset numeral interpretation (base 2/8/16 after a
`0b`/`08`/`0x` prefix, base 10 bare), failing with a parse error when the
numeral is invalid. -/
theorem c6_command_parsing :
    Msg.parse ['q'] = .ok .quit ∧
    Msg.parse ['q', '!'] = .ok .quitWithoutSaving ∧
    Msg.parse ['w'] = .ok .save ∧
    (∀ p : List Char, Msg.parse ('w' :: ' ' :: p) = .ok (.saveAs p)) ∧
    Msg.parse ['w', 'q'] = .ok .saveAndQuit ∧
    Msg.parse ['x'] = .ok .saveAndQuit ∧
    (∀ cmd : List Char, cmd ≠ ['q'] → cmd ≠ ['q', '!'] → cmd ≠ ['w'] →
      cmd ≠ ['w', 'q'] → cmd ≠ ['x'] → cmd.take 2 ≠ ['w', ' '] →
      (∀ off : Nat, jumpInterp cmd = some off →
        Msg.parse cmd = .ok (.move (.offsetDir off))) ∧
      (jumpInterp cmd = none → Msg.parse cmd = .error "no such command")) := by
  refine ⟨rfl, rfl, rfl, ?_, rfl, rfl, ?_⟩
  · intro p
    simp [Msg.parse]
  · intro cmd h1 h2 h3 h4 h5 h6
    constructor
    · intro off hoff
      simp only [Msg.parse, h1, h2, h3, h4, h5, h6, or_self, if_false, hoff]
    · intro hnone
      simp only [Msg.parse, h1, h2, h3, h4, h5, h6, or_self, if_false, hnone]

/-- Witness for `c6_command_parsing`: a concrete save-as, one jump per
numeral base, and a concrete parse error. -/
theorem c6_command_parsing_witness :
    Msg.parse ['w', ' ', 'a', '.', 'b'] = .ok (.saveAs ['a', '.', 'b']) ∧
    Msg.parse ['0', 'x', '1', 'f'] = .ok (.move (.offsetDir 31)) ∧
    Msg.parse ['0', 'b', '1', '0', '1'] = .ok (.move (.offsetDir 5)) ∧
    Msg.parse ['0', '8', '1', '7'] = .ok (.move (.offsetDir 15)) ∧
    Msg.parse ['4', '2'] = .ok (.move (.offsetDir 42)) ∧
    Msg.parse ['z'] = .error "no such command" := by
  refine ⟨c6_command_parsing.2.2.2.1 ['a', '.', 'b'], ?_, ?_, ?_, ?_, ?_⟩
  · exact (c6_command_parsing.2.2.2.2.2.2 ['0', 'x', '1', 'f'] (by decide)
      (by decide) (by decide) (by decide) (by decide) (by decide)).1 31
      (by decide)
  · exact (c6_command_parsing.2.2.2.2.2.2 ['0', 'b', '1', '0', '1']
      (by decide) (by decide) (by decide) (by decide) (by decide)
      (by decide)).1 5 (by decide)
  · exact (c6_command_parsing.2.2.2.2.2.2 ['0', '8', '1', '7'] (by decide)
      (by decide) (by decide) (by decide) (by decide) (by decide)).1 15
      (by decide)
  · exact (c6_command_parsing.2.2.2.2.2.2 ['4', '2'] (by decide) (by decide)
      (by decide) (by decide) (by decide) (by decide)).1 42 (by decide)
  · exact (c6_command_parsing.2.2.2.2.2.2 ['z'] (by decide) (by decide)
      (by decide) (by decide) (by decide) (by decide)).2 (by decide)

end Xim
